import Mathlib

/-!
# Verification of the CSV processor (`csv_processor.py`)

Shallow embedding of the condition parsers, the typed comparison used by
row filtering, and the column aggregation of the CSV-processing utility.

Python floats are modelled by `PyFloat`: an exact rational for finite
values, plus `inf`, `ninf` and `nan` with IEEE comparison/arithmetic
semantics (`nan` compares false to everything, `inf + ninf = nan`).
Finite arithmetic is exact rational arithmetic; binary64 rounding and
overflow are not modelled, so no theorem below depends on the value of a
finite sum or average.  String parsing follows the grammar accepted by Python's
`float()` constructor restricted to ASCII input: optional surrounding
whitespace, optional sign, then either a decimal numeral (with optional
fraction, exponent and underscores between digits) or a case-insensitive
`inf` / `infinity` / `nan`.
-/

/-- Model of a Python float value: finite values are exact rationals. -/
inductive PyFloat where
  | finite (q : ℚ)
  | inf
  | ninf
  | nan
deriving DecidableEq, Repr

namespace PyFloat

/-- IEEE strict less-than: any comparison with `nan` is false. -/
def lt : PyFloat → PyFloat → Bool
  | nan, _ => false
  | _, nan => false
  | ninf, ninf => false
  | ninf, _ => true
  | _, ninf => false
  | inf, _ => false
  | finite _, inf => true
  | finite a, finite b => decide (a < b)

/-- IEEE equality: `nan` is not equal to anything, `nan` included. -/
def eqb : PyFloat → PyFloat → Bool
  | nan, _ => false
  | _, nan => false
  | inf, inf => true
  | ninf, ninf => true
  | finite a, finite b => decide (a = b)
  | _, _ => false

/-- IEEE non-strict order: `a <= b` iff `a < b` or `a = b`; false on `nan`. -/
def le (a b : PyFloat) : Bool := lt a b || eqb a b

/-- IEEE addition on the model: `inf + ninf = nan`, `nan` is absorbing,
finite addition is exact rational addition. -/
def add : PyFloat → PyFloat → PyFloat
  | nan, _ => nan
  | _, nan => nan
  | inf, ninf => nan
  | ninf, inf => nan
  | inf, _ => inf
  | _, inf => inf
  | ninf, _ => ninf
  | _, ninf => ninf
  | finite a, finite b => finite (a + b)

/-- Division of a float by a positive machine integer (used for `avg`). -/
def divNat : PyFloat → Nat → PyFloat
  | nan, _ => nan
  | inf, _ => inf
  | ninf, _ => ninf
  | finite a, n => finite (a / (n : ℚ))

end PyFloat

/-! ## The grammar accepted by Python's `float()` constructor -/

/-- Characters stripped by `float()` around its argument (ASCII part). -/
def isPyWs (c : Char) : Bool :=
  c = ' ' || c = '\t' || c = '\n' || c = '\x0d' || c = '\x0b' || c = '\x0c'

/-- Strip `float()` whitespace from both ends. -/
def stripWs (l : List Char) : List Char :=
  ((l.dropWhile isPyWs).reverse.dropWhile isPyWs).reverse

/-- Consume a maximal Python `digitpart`: digits with single underscores
allowed only between digits.  Returns the accumulated value, the number of
digits consumed, and the unconsumed remainder. -/
def digitsAux : Nat → Nat → List Char → Nat × Nat × List Char
  | acc, n, [] => (acc, n, [])
  | acc, n, c :: rest =>
    if c.isDigit then
      digitsAux (10 * acc + (c.toNat - 48)) (n + 1) rest
    else if c = '_' && n ≠ 0 && (rest.headD 'x').isDigit then
      digitsAux acc n rest
    else (acc, n, c :: rest)

/-- Parse an optional exponent part (`e` / `E`, optional sign, digitpart);
the whole remainder must be consumed. -/
def parseExp (m : ℚ) : List Char → Option ℚ
  | [] => some m
  | c :: rest =>
    if c = 'e' || c = 'E' then
      let (sgnPos, body) :=
        match rest with
        | '+' :: r2 => (true, r2)
        | '-' :: r2 => (false, r2)
        | r2 => (true, r2)
      let (e, n, r) := digitsAux 0 0 body
      if n = 0 || r ≠ [] then none
      else some (if sgnPos then m * 10 ^ e else m / 10 ^ e)
    else none

/-- Parse an unsigned Python `floatnumber`: `digitpart [. [digitpart]] [exp]`
or `. digitpart [exp]`, consuming the whole input. -/
def parseNumber (l : List Char) : Option ℚ :=
  let (ip, nInt, r1) := digitsAux 0 0 l
  match r1 with
  | '.' :: r2 =>
    let (fp, nFrac, r3) := digitsAux 0 0 r2
    if nInt + nFrac = 0 then none
    else parseExp ((ip : ℚ) + (fp : ℚ) / 10 ^ nFrac) r3
  | _ => if nInt = 0 then none else parseExp (ip : ℚ) r1

/-- Parse an unsigned body: `inf`, `infinity`, `nan` (case-insensitive) or a
decimal numeral.  `neg` records a leading minus sign. -/
def parseBody (neg : Bool) (l : List Char) : Option PyFloat :=
  let low := l.map Char.toLower
  if low = "inf".toList || low = "infinity".toList then
    some (if neg then .ninf else .inf)
  else if low = "nan".toList then
    some .nan
  else
    (parseNumber l).map fun q => .finite (if neg then -q else q)

/-- Model of Python's `float(s)`: `some v` when the constructor succeeds,
`none` when it raises `ValueError`. -/
def pyFloat (s : String) : Option PyFloat :=
  match stripWs s.toList with
  | '+' :: r => parseBody false r
  | '-' :: r => parseBody true r
  | r => parseBody false r

/-! ## Data model: headers and rows -/

/-- A row as produced by `csv.DictReader`: a mapping from header names to
textual cell values, modelled as an association list. -/
def Row := List (String × String)

/-- Model of `row[column]`.  The loader guarantees that every loaded row
binds every header name; a missing key is modelled as the empty string. -/
def rowGet (r : Row) (c : String) : String :=
  (List.lookup c r).getD ""

/-- The in-memory state of `CSVProcessor` after `load_data`. -/
structure CSVProcessor where
  headers : List String
  data : List Row

/-- Error taxonomy of the processor (each corresponds to a
`print` + `sys.exit(1)` site in the source). -/
inductive Err where
  | unknownColumn
  | invalidConditionFormat
  | unknownOperation
  | nonNumericColumn
  | emptyColumn
deriving DecidableEq, Repr

/-! ## TypedComparator: the predicate of `filter_data`'s loop body -/

/-- The `except ValueError` branch of the loop in `filter_data`:
lexicographic (code-point) comparison on the raw strings. -/
def strMatch (row_value op value : String) : Bool :=
  if op = "=" && row_value == value then true
  else if op = ">" && decide (value < row_value) then true
  else if op = "<" && decide (row_value < value) then true
  else false

/-- The loop body of `filter_data` (lines 43-61): try to convert both the
cell and the target with `float`; on success compare numerically, on
`ValueError` fall back to string comparison. -/
def matchesCell (row_value op value : String) : Bool :=
  match pyFloat row_value with
  | some numeric_row_value =>
    match pyFloat value with
    | some numeric_filter_value =>
      if op = ">" && PyFloat.lt numeric_filter_value numeric_row_value then true
      else if op = "<" && PyFloat.lt numeric_row_value numeric_filter_value then true
      else if op = "=" && PyFloat.eqb numeric_row_value numeric_filter_value then true
      else false
    | none => strMatch row_value op value
  | none => strMatch row_value op value

/-- Model of `CSVProcessor.filter_data`. -/
def filter_data (p : CSVProcessor) (column op value : String) :
    Except Err (List Row) :=
  if p.headers.contains column then
    .ok (p.data.filter fun row => matchesCell (rowGet row column) op value)
  else
    .error .unknownColumn

/-! ## Aggregator -/

/-- Convert every cell with `float`, aborting at the first `ValueError`
(the conversion loop of `aggregate_data`, lines 72-78). -/
def floatAll : List String → Option (List PyFloat)
  | [] => some []
  | s :: rest =>
    match pyFloat s with
    | none => none
    | some v => (floatAll rest).map fun vs => v :: vs

/-- Python's `sum` over floats: left fold of `+` starting from `0`. -/
def pySum (l : List PyFloat) : PyFloat :=
  l.foldl PyFloat.add (.finite 0)

/-- Python's `min` over a non-empty float list: keep the current minimum,
replace it when a later element compares strictly smaller. -/
def pyMin (h : PyFloat) (t : List PyFloat) : PyFloat :=
  t.foldl (fun acc x => if PyFloat.lt x acc then x else acc) h

/-- Python's `max` over a non-empty float list. -/
def pyMax (h : PyFloat) (t : List PyFloat) : PyFloat :=
  t.foldl (fun acc x => if PyFloat.lt acc x then x else acc) h

/-- The result dictionary built by `aggregate_data`. -/
structure AggResult where
  operation : String
  column : String
  value : PyFloat
deriving DecidableEq, Repr

/-- Model of `CSVProcessor.aggregate_data`. -/
def aggregate_data (p : CSVProcessor) (column operation : String) :
    Except Err AggResult :=
  if p.headers.contains column then
    match floatAll (p.data.map fun row => rowGet row column) with
    | none => .error .nonNumericColumn
    | some [] => .error .emptyColumn
    | some (v :: vs) =>
      if operation = "avg" then
        .ok ⟨"Average", column, (pySum (v :: vs)).divNat (v :: vs).length⟩
      else if operation = "min" then
        .ok ⟨"Minimum", column, pyMin v vs⟩
      else if operation = "max" then
        .ok ⟨"Maximum", column, pyMax v vs⟩
      else .error .unknownOperation
  else .error .unknownColumn

/-! ## ConditionParser -/

/-- Python's `str.strip()`: remove whitespace from both ends (the ASCII
whitespace set of `str.isspace`). -/
def pyStrip (s : String) : String :=
  String.mk (stripWs s.toList)

/-- Split a character list at the first occurrence of a pattern, returning
the parts before and after it (Python's `s.split(op, 1)` when `op in s`);
`none` when the pattern does not occur. -/
def splitOnce (pat : List Char) : List Char → Option (List Char × List Char)
  | [] => if pat = [] then some ([], []) else none
  | c :: rest =>
    if pat.isPrefixOf (c :: rest) then
      some ([], (c :: rest).drop pat.length)
    else
      (splitOnce pat rest).map fun p => (c :: p.1, p.2)

/-- Python's `op in s` substring test. -/
def occurs (pat s : String) : Bool :=
  (splitOnce pat.toList s.toList).isSome

/-- The operator list of `parse_filter_condition`, in scan order. -/
def operators : List String := [">=", "<=", ">", "<", "="]

/-- Model of `parse_filter_condition`: scan `operators` in order, split on
the first occurrence of the first operator that occurs, trim both parts. -/
def parse_filter_condition (condition : String) :
    Except Err (String × String × String) :=
  match operators.find? (fun op => occurs op condition) with
  | some op =>
    match splitOnce op.toList condition.toList with
    | some (bef, aft) =>
      .ok (pyStrip (String.mk bef), op, pyStrip (String.mk aft))
    | none => .error .invalidConditionFormat
  | none => .error .invalidConditionFormat

/-- Model of `parse_aggregate_condition`: require `=` to occur, split on
its first occurrence, trim, and validate the operation name. -/
def parse_aggregate_condition (condition : String) :
    Except Err (String × String) :=
  match splitOnce "=".toList condition.toList with
  | none => .error .invalidConditionFormat
  | some (bef, aft) =>
    let column := pyStrip (String.mk bef)
    let operation := pyStrip (String.mk aft)
    if ["avg", "min", "max"].contains operation then
      .ok (column, operation)
    else
      .error .unknownOperation

/-! ## Specification-side comparison functions (for refinement claims)

These two definitions follow the words of the specification, not the
source: numeric-first comparison and lexicographic fallback, as abstract
dispatch tables.  The claims relate `matchesCell` (translated from the
source control flow) to these. -/

/-- Spec wording: apply the operator by numeric comparison, `=` being
exact equality. -/
def specNumericCompare (op : String) (a b : PyFloat) : Bool :=
  if op = ">" then PyFloat.lt b a
  else if op = "<" then PyFloat.lt a b
  else if op = "=" then PyFloat.eqb a b
  else false

/-- Spec wording: apply the operator by lexicographic (code-point-wise)
comparison of the raw strings. -/
def specLexCompare (op : String) (s t : String) : Bool :=
  if op = ">" then decide (t < s)
  else if op = "<" then decide (s < t)
  else if op = "=" then s == t
  else false

/-! ## Claim theorems -/

private theorem str_beq_decide (s t : String) : (s == t) = decide (s = t) := by
  by_cases h : s = t <;> simp [h]

/-- **C1.** For every cell value, operator in `{>", "<", "="}` and target:
when both strings parse as floats the predicate is decided by numeric
comparison of the parsed numbers (exact equality for `=`); when either
fails to parse it is decided by lexicographic comparison of the raw
strings. -/
theorem matchesCell_dispatch (cell op target : String)
    (hop : op = ">" ∨ op = "<" ∨ op = "=") :
    matchesCell cell op target =
      match pyFloat cell, pyFloat target with
      | some a, some b => specNumericCompare op a b
      | _, _ => specLexCompare op cell target := by
  rcases hop with h | h | h <;> subst h <;>
    cases h1 : pyFloat cell <;> cases h2 : pyFloat target <;>
      simp [matchesCell, strMatch, specNumericCompare, specLexCompare, h1, h2,
        str_beq_decide]

/-- Witness for C1 at the spec's example: `matches("apple", ">", "samsung")`
falls into the lexicographic branch and is false. -/
theorem matchesCell_dispatch_witness :
    matchesCell "apple" ">" "samsung" = false := by
  rw [matchesCell_dispatch "apple" ">" "samsung" (Or.inl rfl)]
  with_unfolding_all decide

/-! ### Properties of `splitOnce` (Python's `split(op, 1)`) -/

/-- A successful split decomposes the input around the pattern. -/
theorem splitOnce_append (pat : List Char) :
    ∀ s bef aft, splitOnce pat s = some (bef, aft) → s = bef ++ pat ++ aft := by
  intro s
  induction s with
  | nil =>
    intro bef aft h
    rw [splitOnce.eq_1] at h
    split at h
    · next hp => cases h; subst hp; rfl
    · cases h
  | cons c rest ih =>
    intro bef aft h
    rw [splitOnce.eq_2] at h
    split at h
    · next hp =>
      cases h
      obtain ⟨t, ht⟩ := List.isPrefixOf_iff_prefix.mp hp
      rw [← ht, List.drop_left]
      simp
    · next hp =>
      rcases ho : splitOnce pat rest with _ | ⟨p1, p2⟩ <;> rw [ho] at h
      · simp at h
      · simp at h
        obtain ⟨h1, h2⟩ := h
        subst h1; subst h2
        have := ih p1 p2 ho
        simp [this]

/-- A successful split happens at the first (leftmost) occurrence of the
pattern. -/
theorem splitOnce_first (pat : List Char) :
    ∀ s bef aft, splitOnce pat s = some (bef, aft) →
      ∀ q r, s = q ++ pat ++ r → bef.length ≤ q.length := by
  intro s
  induction s with
  | nil =>
    intro bef aft h q r heq
    rw [splitOnce.eq_1] at h
    split at h
    · cases h; simp
    · cases h
  | cons c rest ih =>
    intro bef aft h q r heq
    rw [splitOnce.eq_2] at h
    split at h
    · cases h; simp
    · next hp =>
      rcases ho : splitOnce pat rest with _ | ⟨p1, p2⟩ <;> rw [ho] at h
      · simp at h
      · simp at h
        obtain ⟨h1, h2⟩ := h
        subst h1; subst h2
        cases q with
        | nil =>
          exact absurd (List.isPrefixOf_iff_prefix.mpr ⟨r, by simpa using heq.symm⟩) hp
        | cons c' q' =>
          simp only [List.cons_append, List.cons.injEq] at heq
          simpa using Nat.succ_le_succ (ih p1 p2 ho q' r heq.2)

/-- `splitOnce` fails exactly when the pattern occurs nowhere in the input
(for a non-empty pattern). -/
theorem splitOnce_none_iff (pat : List Char) (hpat : pat ≠ []) :
    ∀ s, splitOnce pat s = none ↔ ∀ q r, s ≠ q ++ pat ++ r := by
  intro s
  constructor
  · induction s with
    | nil =>
      intro _ q r heq
      cases q with
      | nil =>
        simp only [List.nil_append] at heq
        exact hpat (List.append_eq_nil.mp heq.symm).1
      | cons c q' => cases heq
    | cons c rest ih =>
      intro h q r heq
      rw [splitOnce.eq_2] at h
      split at h
      · cases h
      · next hp =>
        rcases ho : splitOnce pat rest with _ | p <;> rw [ho] at h
        · cases q with
          | nil =>
            exact absurd (List.isPrefixOf_iff_prefix.mpr ⟨r, by simpa using heq.symm⟩) hp
          | cons c' q' =>
            simp only [List.cons_append, List.cons.injEq] at heq
            exact ih ho q' r heq.2
        · simp at h
  · intro hall
    rcases hsplit : splitOnce pat s with _ | ⟨bef, aft⟩
    · rfl
    · exact absurd (splitOnce_append pat s bef aft hsplit) (hall bef aft)

/-- **C2.** `parse_filter_condition` scans `[">=", "<=", ">", "<", "="]`
in priority order, picks the first operator of that list that occurs
anywhere in the text, splits the text at the first occurrence of that
operator into exactly two parts, and returns the parts trimmed. -/
theorem parse_filter_condition_splits (condition op : String)
    (bef aft : List Char)
    (hfind : operators.find? (fun o => occurs o condition) = some op)
    (hsplit : splitOnce op.toList condition.toList = some (bef, aft)) :
    condition.toList = bef ++ op.toList ++ aft ∧
    (∀ q r, condition.toList = q ++ op.toList ++ r → bef.length ≤ q.length) ∧
    parse_filter_condition condition =
      .ok (pyStrip (String.mk bef), op, pyStrip (String.mk aft)) := by
  refine ⟨splitOnce_append _ _ _ _ hsplit, splitOnce_first _ _ _ _ hsplit, ?_⟩
  simp only [parse_filter_condition, hfind, hsplit]

/-- Witness for C2 at the spec's two examples. -/
theorem parse_filter_condition_splits_witness :
    parse_filter_condition "price>500" = .ok ("price", ">", "500") ∧
    parse_filter_condition "brand = apple" = .ok ("brand", "=", "apple") := by
  constructor
  · have h := (parse_filter_condition_splits "price>500" ">"
      "price".toList "500".toList (by with_unfolding_all decide)
      (by with_unfolding_all decide)).2.2
    rw [h]; with_unfolding_all rfl
  · have h := (parse_filter_condition_splits "brand = apple" "="
      "brand ".toList " apple".toList (by with_unfolding_all decide)
      (by with_unfolding_all decide)).2.2
    rw [h]; with_unfolding_all rfl

/-- **C8 counterexample.** The claim says the parser fails whenever the
split does not yield two non-degenerate (non-empty after trimming) parts;
but on input `"="` both parts are empty after trimming and the parser
still succeeds. -/
theorem parse_filter_condition_degenerate_ok :
    parse_filter_condition "=" = .ok ("", "=", "") ∧
    (pyStrip "" = "" ∧ ("" : String).length = 0) := by
  constructor
  · with_unfolding_all rfl
  · exact ⟨rfl, rfl⟩

/-- **C8 (amended).** `parse_filter_condition` fails with
`InvalidConditionFormat` exactly when no operator of the list occurs as a
substring of the input; whenever some operator occurs it succeeds (the
returned column and value may be empty after trimming). -/
theorem parse_filter_condition_error_iff (condition : String) :
    (parse_filter_condition condition = .error .invalidConditionFormat ↔
      ∀ op ∈ operators, ∀ q r, condition.toList ≠ q ++ op.toList ++ r) ∧
    ((∃ op ∈ operators, ∃ q r, condition.toList = q ++ op.toList ++ r) →
      ∃ res, parse_filter_condition condition = .ok res) := by
  have hne : ∀ op ∈ operators, op.toList ≠ [] := by decide
  rcases hfind : operators.find? (fun o => occurs o condition) with _ | op
  · have hnone : ∀ op ∈ operators, occurs op condition = false := by
      intro op hop
      have := List.find?_eq_none.mp hfind op hop
      simpa using this
    constructor
    · constructor
      · intro _ op hop q r heq
        have h1 : splitOnce op.toList condition.toList = none := by
          have hx := hnone op hop
          rw [occurs] at hx
          rcases hsp : splitOnce op.toList condition.toList with _ | p
          · rfl
          · rw [hsp] at hx; simp at hx
        exact (splitOnce_none_iff op.toList (hne op hop) condition.toList).mp h1 q r heq
      · intro _
        simp only [parse_filter_condition, hfind]
    · rintro ⟨op, hop, q, r, heq⟩
      have h1 : splitOnce op.toList condition.toList = none := by
        have hx := hnone op hop
        rw [occurs] at hx
        rcases hsp : splitOnce op.toList condition.toList with _ | p
        · rfl
        · rw [hsp] at hx; simp at hx
      exact absurd heq ((splitOnce_none_iff op.toList (hne op hop) condition.toList).mp h1 q r)
  · have hmem : op ∈ operators := List.mem_of_find?_eq_some hfind
    have hocc : occurs op condition = true := by
      have := List.find?_some hfind
      simpa using this
    rcases hsplit : splitOnce op.toList condition.toList with _ | ⟨bef, aft⟩
    · rw [occurs, hsplit] at hocc
      cases hocc
    · have hok : parse_filter_condition condition =
          .ok (pyStrip (String.mk bef), op, pyStrip (String.mk aft)) := by
        simp only [parse_filter_condition, hfind, hsplit]
      constructor
      · constructor
        · intro h
          rw [hok] at h
          cases h
        · intro hall
          exact absurd (splitOnce_append _ _ _ _ hsplit) (hall op hmem bef aft)
      · intro _
        exact ⟨_, hok⟩

/-- Witness for C8: on `"noop"` no operator occurs (derived through the
theorem from the computed error), and on `"price>500"` an occurrence
exists so the parser succeeds. -/
theorem parse_filter_condition_error_iff_witness :
    (∀ op ∈ operators, ∀ q r, "noop".toList ≠ q ++ op.toList ++ r) ∧
    (∃ res, parse_filter_condition "price>500" = .ok res) := by
  constructor
  · exact (parse_filter_condition_error_iff "noop").1.mp (by with_unfolding_all rfl)
  · exact (parse_filter_condition_error_iff "price>500").2
      ⟨">", by decide, "price".toList, "500".toList, by decide⟩

/-- **C7 counterexample.** The claim requires two non-empty trimmed parts
(otherwise `InvalidConditionFormat`); but on `"=avg"` the left part is
empty after trimming and the parser still succeeds. -/
theorem parse_aggregate_condition_degenerate_ok :
    parse_aggregate_condition "=avg" = .ok ("", "avg") ∧
    ("" : String).length = 0 := by
  constructor
  · with_unfolding_all rfl
  · rfl

/-- **C7 (amended).** `parse_aggregate_condition` fails with
`InvalidConditionFormat` exactly when `=` occurs nowhere in the text;
otherwise it splits at the first `=` (both parts trimmed, possibly
empty), fails with `UnknownOperation` unless the trimmed right part is
exactly one of `avg`, `min`, `max`, and returns the pair otherwise. -/
theorem parse_aggregate_condition_spec (condition : String) :
    (parse_aggregate_condition condition = .error .invalidConditionFormat ↔
      ∀ q r, condition.toList ≠ q ++ "=".toList ++ r) ∧
    (∀ bef aft, splitOnce "=".toList condition.toList = some (bef, aft) →
      (["avg", "min", "max"].contains (pyStrip (String.mk aft)) = true →
        parse_aggregate_condition condition =
          .ok (pyStrip (String.mk bef), pyStrip (String.mk aft))) ∧
      (["avg", "min", "max"].contains (pyStrip (String.mk aft)) = false →
        parse_aggregate_condition condition = .error .unknownOperation)) := by
  rcases hsplit : splitOnce "=".toList condition.toList with _ | ⟨bef, aft⟩
  · constructor
    · constructor
      · intro _
        exact (splitOnce_none_iff "=".toList (by decide) condition.toList).mp hsplit
      · intro _
        simp only [parse_aggregate_condition, hsplit]
    · intro bef aft h
      cases h
  · have hnoinv : parse_aggregate_condition condition ≠
        .error .invalidConditionFormat := by
      simp only [parse_aggregate_condition, hsplit]
      split <;> simp
    constructor
    · constructor
      · intro herr
        exact absurd herr hnoinv
      · intro hall
        exact absurd (splitOnce_append _ _ _ _ hsplit) (hall bef aft)
    · intro bef' aft' h
      cases h
      constructor
      · intro hmem
        simp only [parse_aggregate_condition, hsplit, hmem]
        simp
      · intro hmem
        simp only [parse_aggregate_condition, hsplit, hmem]
        simp

/-- Witness for C7 at the spec's examples: `"price=avg"` parses, while
`"price=invalid"` fails with `UnknownOperation`. -/
theorem parse_aggregate_condition_spec_witness :
    parse_aggregate_condition "price=avg" = .ok ("price", "avg") ∧
    parse_aggregate_condition "price=invalid" = .error .unknownOperation := by
  constructor
  · have h := (((parse_aggregate_condition_spec "price=avg").2
      "price".toList "avg".toList (by with_unfolding_all decide)).1
      (by with_unfolding_all decide))
    rw [h]; with_unfolding_all rfl
  · exact ((parse_aggregate_condition_spec "price=invalid").2
      "price".toList "invalid".toList (by with_unfolding_all decide)).2
      (by with_unfolding_all decide)

/-- **C4.** Filtering with `>=` or `<=` selects no row at all: the loop
body of `filter_data` implements only the `>`, `<`, `=` branches, so the
predicate never matches and the result is empty (for any table and any
target value). -/
theorem filter_ge_le_selects_nothing (p : CSVProcessor)
    (column value op : String) (hop : op = ">=" ∨ op = "<=")
    (hc : p.headers.contains column = true) :
    filter_data p column op value = .ok [] ∧
    ∀ cell target, matchesCell cell op target = false := by
  have hm : ∀ cell target, matchesCell cell op target = false := by
    intro cell target
    rcases hop with h | h <;> subst h <;>
      cases h1 : pyFloat cell <;> cases h2 : pyFloat target <;>
        simp [matchesCell, strMatch, h1, h2]
  have hnil : p.data.filter
      (fun row => matchesCell (rowGet row column) op value) = [] :=
    List.filter_eq_nil_iff.mpr fun a _ => by simp [hm]
  have hcm : column ∈ p.headers := by simpa using hc
  exact ⟨by simp [filter_data, hcm, hnil], hm⟩

/-- Witness for C4 on a one-row table with operator `>=`. -/
theorem filter_ge_le_selects_nothing_witness :
    filter_data (CSVProcessor.mk ["price"] [[("price", "999")]])
      "price" ">=" "100" = .ok [] ∧
    ∀ cell target, matchesCell cell ">=" target = false :=
  filter_ge_le_selects_nothing (CSVProcessor.mk ["price"] [[("price", "999")]])
    "price" "100" ">=" (Or.inl rfl) (by decide)

/-- **C5.** `filter_data` fails with `UnknownColumn` iff the column is not
in the headers; on success the result is exactly the rows whose cell
matches the predicate, as an ordered sublist of the data (stable filter:
relative row order is preserved). -/
theorem filter_data_spec (p : CSVProcessor) (column op value : String) :
    (filter_data p column op value = .error .unknownColumn ↔
      p.headers.contains column = false) ∧
    (∀ out, filter_data p column op value = .ok out →
      out.Sublist p.data ∧
      out = p.data.filter fun row => matchesCell (rowGet row column) op value) := by
  cases hc : p.headers.contains column
  · have hcm : column ∉ p.headers := by simpa using hc
    constructor
    · simp [filter_data, hcm]
    · intro out hout
      simp [filter_data, hcm] at hout
  · have hcm : column ∈ p.headers := by simpa using hc
    have hok : filter_data p column op value =
        .ok (p.data.filter fun row => matchesCell (rowGet row column) op value) := by
      simp [filter_data, hcm]
    constructor
    · rw [hok]
      simp [hc]
    · intro out hout
      rw [hok] at hout
      cases hout
      exact ⟨List.filter_sublist _, rfl⟩

/-- Witness for C5 on a two-row table: the brand filter keeps exactly the
matching row, as a sublist of the original data. -/
theorem filter_data_spec_witness :
    ([[("brand", "apple")]] : List Row).Sublist
      [[("brand", "apple")], [("brand", "samsung")]] ∧
    ([[("brand", "apple")]] : List Row) =
      List.filter (fun row => matchesCell (rowGet row "brand") "=" "apple")
        [[("brand", "apple")], [("brand", "samsung")]] :=
  (filter_data_spec (CSVProcessor.mk ["brand"]
      [[("brand", "apple")], [("brand", "samsung")]]) "brand" "=" "apple").2
    [[("brand", "apple")]] (by with_unfolding_all rfl)

/-- A cell always `=`-matches itself unless it parses as NaN: for
non-numeric text the fallback is string equality, and for numeric text
other than NaN the float equality is reflexive. -/
theorem matchesCell_self (s : String) (h : pyFloat s ≠ some .nan) :
    matchesCell s "=" s = true := by
  cases hp : pyFloat s with
  | none => simp [matchesCell, hp, strMatch]
  | some v =>
    cases v with
    | finite q => simp [matchesCell, hp, PyFloat.eqb]
    | inf => simp [matchesCell, hp, PyFloat.eqb]
    | ninf => simp [matchesCell, hp, PyFloat.eqb]
    | nan => exact absurd hp h

/-- **C6 counterexample.** A row whose cell is `"nan"` is *not* included
when filtering that column by the row's own cell value with `=`: the cell
parses as NaN and NaN is not float-equal to itself, so the result is
empty even though the row is in the table. -/
theorem filter_self_nan_excluded :
    (([("price", "nan")] : Row) ∈
      (CSVProcessor.mk ["price"] [[("price", "nan")]]).data) ∧
    rowGet [("price", "nan")] "price" = "nan" ∧
    filter_data (CSVProcessor.mk ["price"] [[("price", "nan")]])
      "price" "=" "nan" = .ok [] := by
  refine ⟨by simp, by with_unfolding_all rfl, by with_unfolding_all rfl⟩

/-- **C6 (amended).** Filtering a column by a row's own cell value with
`=` includes that row, provided the cell does not parse as NaN. -/
theorem filter_self_value_included (p : CSVProcessor) (r : Row)
    (column : String) (hr : r ∈ p.data)
    (hc : p.headers.contains column = true)
    (hn : pyFloat (rowGet r column) ≠ some .nan) :
    ∃ out, filter_data p column "=" (rowGet r column) = .ok out ∧
      r ∈ out := by
  have hcm : column ∈ p.headers := by simpa using hc
  have hok : filter_data p column "=" (rowGet r column) =
      .ok (p.data.filter fun row =>
        matchesCell (rowGet row column) "=" (rowGet r column)) := by
    simp [filter_data, hcm]
  exact ⟨_, hok, List.mem_filter.mpr ⟨hr, by simp [matchesCell_self _ hn]⟩⟩

/-- Witness for C6 (amended) on a non-NaN cell. -/
theorem filter_self_value_included_witness :
    ∃ out, filter_data (CSVProcessor.mk ["brand"] [[("brand", "apple")]])
      "brand" "=" (rowGet [("brand", "apple")] "brand") = .ok out ∧
      ([("brand", "apple")] : Row) ∈ out :=
  filter_self_value_included (CSVProcessor.mk ["brand"] [[("brand", "apple")]])
    [("brand", "apple")] "brand" (by simp) (by decide)
    (by with_unfolding_all decide)

/-- The conversion loop fails exactly when some cell fails to convert. -/
theorem floatAll_eq_none_iff (l : List String) :
    floatAll l = none ↔ ∃ s ∈ l, pyFloat s = none := by
  induction l with
  | nil => simp [floatAll]
  | cons s rest ih =>
    cases hp : pyFloat s with
    | none =>
      simp only [floatAll, hp]
      exact ⟨fun _ => ⟨s, by simp, hp⟩, fun _ => trivial⟩
    | some v =>
      simp only [floatAll, hp]
      cases hr : floatAll rest with
      | none =>
        simp only [Option.map_none']
        constructor
        · intro _
          obtain ⟨t, ht, hpt⟩ := ih.mp hr
          exact ⟨t, by simp [ht], hpt⟩
        · intro _; trivial
      | some vs =>
        simp only [Option.map_some']
        constructor
        · intro h; cases h
        · rintro ⟨t, ht, hpt⟩
          rcases List.mem_cons.mp ht with rfl | htr
          · rw [hpt] at hp; cases hp
          · have hnone : floatAll rest = none := ih.mpr ⟨t, htr, hpt⟩
            rw [hnone] at hr; cases hr

/-- The conversion loop yields the empty list exactly on empty input. -/
theorem floatAll_nil_iff (l : List String) :
    floatAll l = some [] ↔ l = [] := by
  cases l with
  | nil => simp [floatAll]
  | cons s rest =>
    cases hp : pyFloat s with
    | none => simp [floatAll, hp]
    | some v =>
      simp only [floatAll, hp]
      cases hr : floatAll rest <;> simp

/-- **C3.** With a known column and an operation among `avg`, `min`,
`max`: aggregation fails with `NonNumericColumn` iff some cell of the
column fails to parse as a float (the whole operation aborts); it fails
with `EmptyColumn` iff the table has zero rows; otherwise it succeeds. -/
theorem aggregate_data_errors (p : CSVProcessor) (column operation : String)
    (hc : p.headers.contains column = true)
    (hop : operation = "avg" ∨ operation = "min" ∨ operation = "max") :
    (aggregate_data p column operation = .error .nonNumericColumn ↔
      ∃ r ∈ p.data, pyFloat (rowGet r column) = none) ∧
    (aggregate_data p column operation = .error .emptyColumn ↔
      p.data = []) ∧
    (((∀ r ∈ p.data, pyFloat (rowGet r column) ≠ none) ∧ p.data ≠ []) →
      ∃ res, aggregate_data p column operation = .ok res) := by
  have hcm : column ∈ p.headers := by simpa using hc
  rcases hfa : floatAll (p.data.map fun row => rowGet row column) with _ | vals
  · have herr : aggregate_data p column operation = .error .nonNumericColumn := by
      simp [aggregate_data, hcm, hfa]
    have hex : ∃ r ∈ p.data, pyFloat (rowGet r column) = none := by
      obtain ⟨s, hs, hps⟩ := (floatAll_eq_none_iff _).mp hfa
      obtain ⟨r, hr, rfl⟩ := List.mem_map.mp hs
      exact ⟨r, hr, hps⟩
    refine ⟨⟨fun _ => hex, fun _ => herr⟩, ?_, ?_⟩
    · rw [herr]
      constructor
      · intro h; simp at h
      · intro hnil
        rw [hnil] at hfa
        simp [floatAll] at hfa
    · rintro ⟨hall, _⟩
      obtain ⟨r, hr, hpr⟩ := hex
      exact absurd hpr (hall r hr)
  · cases vals with
    | nil =>
      have hdata : p.data = [] :=
        List.map_eq_nil_iff.mp ((floatAll_nil_iff _).mp hfa)
      have herr : aggregate_data p column operation = .error .emptyColumn := by
        simp [aggregate_data, hcm, hfa]
      refine ⟨?_, ⟨fun _ => hdata, fun _ => herr⟩, ?_⟩
      · rw [herr]
        constructor
        · intro h; simp at h
        · rintro ⟨r, hr, _⟩
          rw [hdata] at hr
          cases hr
      · rintro ⟨_, hne⟩
        exact absurd hdata hne
    | cons v vs =>
      have hne : p.data ≠ [] := by
        intro h
        rw [h] at hfa
        simp [floatAll] at hfa
      have hok : ∃ res, aggregate_data p column operation = .ok res := by
        rcases hop with h | h | h <;> subst h
        · exact ⟨⟨"Average", column, (pySum (v :: vs)).divNat (v :: vs).length⟩,
            by simp [aggregate_data, hcm, hfa]⟩
        · exact ⟨⟨"Minimum", column, pyMin v vs⟩,
            by simp [aggregate_data, hcm, hfa]⟩
        · exact ⟨⟨"Maximum", column, pyMax v vs⟩,
            by simp [aggregate_data, hcm, hfa]⟩
      obtain ⟨res, hres⟩ := hok
      refine ⟨?_, ?_, fun _ => ⟨res, hres⟩⟩
      · rw [hres]
        constructor
        · intro h; simp at h
        · rintro ⟨r, hr, hpr⟩
          have hnone : floatAll (p.data.map fun row => rowGet row column) = none :=
            (floatAll_eq_none_iff _).mpr
              ⟨rowGet r column, List.mem_map_of_mem _ hr, hpr⟩
          rw [hnone] at hfa
          cases hfa
      · rw [hres]
        constructor
        · intro h; simp at h
        · intro h; exact absurd h hne

/-- Witness for C3: a non-numeric cell aborts with `NonNumericColumn`, a
zero-row table gives `EmptyColumn`. -/
theorem aggregate_data_errors_witness :
    aggregate_data (CSVProcessor.mk ["price"] [[("price", "abc")]])
      "price" "avg" = .error .nonNumericColumn ∧
    aggregate_data (CSVProcessor.mk ["price"] []) "price" "avg" =
      .error .emptyColumn := by
  constructor
  · exact ((aggregate_data_errors (CSVProcessor.mk ["price"] [[("price", "abc")]])
      "price" "avg" (by decide) (Or.inl rfl)).1).mpr
      ⟨[("price", "abc")], by simp, by with_unfolding_all rfl⟩
  · exact ((aggregate_data_errors (CSVProcessor.mk ["price"] []) "price" "avg"
      (by decide) (Or.inl rfl)).2.1).mpr rfl

/-! ### Ordering of the aggregation folds on NaN-free columns -/

/-- On finite values, the model's `<=` is the rational order. -/
theorem le_finite_iff (a b : ℚ) :
    PyFloat.le (.finite a) (.finite b) = true ↔ a ≤ b := by
  rcases lt_trichotomy a b with h | h | h
  · simp [PyFloat.le, PyFloat.lt, PyFloat.eqb, h, le_of_lt h]
  · subst h
    simp [PyFloat.le, PyFloat.lt, PyFloat.eqb]
  · simp [PyFloat.le, PyFloat.lt, PyFloat.eqb, not_lt.mpr (le_of_lt h),
      ne_of_gt h, not_le.mpr h]

/-- `<=` is reflexive away from NaN. -/
theorem le_refl_nonnan (a : PyFloat) (h : a ≠ .nan) : PyFloat.le a a = true := by
  cases a with
  | nan => exact absurd rfl h
  | inf => rfl
  | ninf => rfl
  | finite q => simp [PyFloat.le, PyFloat.lt, PyFloat.eqb]

/-- Strict order implies non-strict order. -/
theorem le_of_lt_py (a b : PyFloat) (h : PyFloat.lt a b = true) :
    PyFloat.le a b = true := by
  simp [PyFloat.le, h]

/-- Away from NaN the order is total: not `a < b` gives `b <= a`. -/
theorem le_of_not_lt_nonnan (a b : PyFloat) (ha : a ≠ .nan) (hb : b ≠ .nan)
    (h : PyFloat.lt a b = false) : PyFloat.le b a = true := by
  cases a with
  | nan => exact absurd rfl ha
  | inf =>
    cases b with
    | nan => exact absurd rfl hb
    | inf => rfl
    | ninf => rfl
    | finite q => rfl
  | ninf =>
    cases b with
    | nan => exact absurd rfl hb
    | inf => simp [PyFloat.lt] at h
    | ninf => rfl
    | finite q => simp [PyFloat.lt] at h
  | finite x =>
    cases b with
    | nan => exact absurd rfl hb
    | inf => simp [PyFloat.lt] at h
    | ninf => rfl
    | finite y =>
      simp only [PyFloat.lt, decide_eq_false_iff_not] at h
      rw [le_finite_iff]
      exact not_lt.mp h

/-- `<=` is transitive away from NaN. -/
theorem le_trans_nonnan (a b c : PyFloat) (ha : a ≠ .nan) (hb : b ≠ .nan)
    (hc : c ≠ .nan) (h1 : PyFloat.le a b = true) (h2 : PyFloat.le b c = true) :
    PyFloat.le a c = true := by
  cases b with
  | nan => exact absurd rfl hb
  | ninf =>
    have haeq : a = .ninf := by
      cases a with
      | nan => exact absurd rfl ha
      | ninf => rfl
      | inf => simp [PyFloat.le, PyFloat.lt, PyFloat.eqb] at h1
      | finite x => simp [PyFloat.le, PyFloat.lt, PyFloat.eqb] at h1
    subst haeq
    cases c with
    | nan => exact absurd rfl hc
    | ninf => rfl
    | inf => rfl
    | finite z => rfl
  | inf =>
    have hceq : c = .inf := by
      cases c with
      | nan => exact absurd rfl hc
      | inf => rfl
      | ninf => simp [PyFloat.le, PyFloat.lt, PyFloat.eqb] at h2
      | finite z => simp [PyFloat.le, PyFloat.lt, PyFloat.eqb] at h2
    subst hceq
    cases a with
    | nan => exact absurd rfl ha
    | inf => rfl
    | ninf => rfl
    | finite x => rfl
  | finite y =>
    cases a with
    | nan => exact absurd rfl ha
    | inf => simp [PyFloat.le, PyFloat.lt, PyFloat.eqb] at h1
    | ninf =>
      cases c with
      | nan => exact absurd rfl hc
      | inf => rfl
      | ninf => rfl
      | finite z => rfl
    | finite x =>
      cases c with
      | nan => exact absurd rfl hc
      | inf => rfl
      | ninf => simp [PyFloat.le, PyFloat.lt, PyFloat.eqb] at h2
      | finite z =>
        rw [le_finite_iff] at h1 h2 ⊢
        exact h1.trans h2

/-- Python's running minimum returns an element of the inspected values. -/
theorem pyMin_mem (t : List PyFloat) : ∀ h, pyMin h t ∈ h :: t := by
  induction t with
  | nil => intro h; simp [pyMin]
  | cons x t ih =>
    intro h
    have hstep : pyMin h (x :: t) =
        pyMin (if PyFloat.lt x h then x else h) t := rfl
    rw [hstep]
    rcases List.mem_cons.mp (ih (if PyFloat.lt x h then x else h)) with heq | hmem
    · rw [heq]
      split <;> simp
    · simp [hmem]

/-- Python's running maximum returns an element of the inspected values. -/
theorem pyMax_mem (t : List PyFloat) : ∀ h, pyMax h t ∈ h :: t := by
  induction t with
  | nil => intro h; simp [pyMax]
  | cons x t ih =>
    intro h
    have hstep : pyMax h (x :: t) =
        pyMax (if PyFloat.lt h x then x else h) t := rfl
    rw [hstep]
    rcases List.mem_cons.mp (ih (if PyFloat.lt h x then x else h)) with heq | hmem
    · rw [heq]
      split <;> simp
    · simp [hmem]

/-- On a NaN-free column, Python's running minimum is a lower bound of
every inspected value (comparisons only, no arithmetic involved). -/
theorem pyMin_le_all (t : List PyFloat) : ∀ h, (∀ v ∈ h :: t, v ≠ .nan) →
    ∀ x ∈ h :: t, PyFloat.le (pyMin h t) x = true := by
  induction t with
  | nil =>
    intro h hnn x hx
    rcases List.mem_cons.mp hx with rfl | hx'
    · exact le_refl_nonnan x (hnn x (by simp))
    · cases hx'
  | cons y t ih =>
    intro h hnn x hx
    have hstep : pyMin h (y :: t) =
        pyMin (if PyFloat.lt y h then y else h) t := rfl
    have hgn : (if PyFloat.lt y h then y else h) ≠ .nan := by
      split
      · exact hnn y (by simp)
      · exact hnn h (by simp)
    have hgh : PyFloat.le (if PyFloat.lt y h then y else h) h = true := by
      split
      · next hlt => exact le_of_lt_py y h hlt
      · exact le_refl_nonnan h (hnn h (by simp))
    have hgy : PyFloat.le (if PyFloat.lt y h then y else h) y = true := by
      split
      · exact le_refl_nonnan y (hnn y (by simp))
      · next hlt =>
        exact le_of_not_lt_nonnan y h (hnn y (by simp)) (hnn h (by simp))
          (by simpa using hlt)
    have hnn' : ∀ v ∈ (if PyFloat.lt y h then y else h) :: t, v ≠ .nan := by
      intro v hv
      rcases List.mem_cons.mp hv with rfl | hvt
      · exact hgn
      · exact hnn v (by simp [hvt])
    have hmin := ih (if PyFloat.lt y h then y else h) hnn'
    have hminn : pyMin (if PyFloat.lt y h then y else h) t ≠ .nan :=
      hnn' _ (pyMin_mem t (if PyFloat.lt y h then y else h))
    have hming : PyFloat.le (pyMin (if PyFloat.lt y h then y else h) t)
        (if PyFloat.lt y h then y else h) = true := hmin _ (by simp)
    rw [hstep]
    rcases List.mem_cons.mp hx with rfl | hx'
    · exact le_trans_nonnan _ _ x hminn hgn (hnn x (by simp)) hming hgh
    · rcases List.mem_cons.mp hx' with rfl | hxt
      · exact le_trans_nonnan _ _ x hminn hgn (hnn x (by simp)) hming hgy
      · exact hmin x (by simp [hxt])

/-- On a NaN-free column, Python's running maximum is an upper bound of
every inspected value. -/
theorem pyMax_ge_all (t : List PyFloat) : ∀ h, (∀ v ∈ h :: t, v ≠ .nan) →
    ∀ x ∈ h :: t, PyFloat.le x (pyMax h t) = true := by
  induction t with
  | nil =>
    intro h hnn x hx
    rcases List.mem_cons.mp hx with rfl | hx'
    · exact le_refl_nonnan x (hnn x (by simp))
    · cases hx'
  | cons y t ih =>
    intro h hnn x hx
    have hstep : pyMax h (y :: t) =
        pyMax (if PyFloat.lt h y then y else h) t := rfl
    have hgn : (if PyFloat.lt h y then y else h) ≠ .nan := by
      split
      · exact hnn y (by simp)
      · exact hnn h (by simp)
    have hhg : PyFloat.le h (if PyFloat.lt h y then y else h) = true := by
      split
      · next hlt => exact le_of_lt_py h y hlt
      · exact le_refl_nonnan h (hnn h (by simp))
    have hyg : PyFloat.le y (if PyFloat.lt h y then y else h) = true := by
      split
      · exact le_refl_nonnan y (hnn y (by simp))
      · next hlt =>
        exact le_of_not_lt_nonnan h y (hnn h (by simp)) (hnn y (by simp))
          (by simpa using hlt)
    have hnn' : ∀ v ∈ (if PyFloat.lt h y then y else h) :: t, v ≠ .nan := by
      intro v hv
      rcases List.mem_cons.mp hv with rfl | hvt
      · exact hgn
      · exact hnn v (by simp [hvt])
    have hmax := ih (if PyFloat.lt h y then y else h) hnn'
    have hmaxn : pyMax (if PyFloat.lt h y then y else h) t ≠ .nan :=
      hnn' _ (pyMax_mem t (if PyFloat.lt h y then y else h))
    have hmaxg : PyFloat.le (if PyFloat.lt h y then y else h)
        (pyMax (if PyFloat.lt h y then y else h) t) = true := hmax _ (by simp)
    rw [hstep]
    rcases List.mem_cons.mp hx with rfl | hx'
    · exact le_trans_nonnan x _ _ (hnn x (by simp)) hgn hmaxn hhg hmaxg
    · rcases List.mem_cons.mp hx' with rfl | hxt
      · exact le_trans_nonnan x _ _ (hnn x (by simp)) hgn hmaxn hyg hmaxg
      · exact hmax x (by simp [hxt])

/-- **C9 counterexample.** `"nan"` parses as a float, so a column
containing it satisfies the claim's hypothesis; but all three aggregates
are NaN and NaN comparisons are false, so `min <= avg` fails. -/
theorem aggregate_nan_violates_order :
    pyFloat "nan" = some .nan ∧
    aggregate_data (CSVProcessor.mk ["price"] [[("price", "nan")]])
      "price" "min" = .ok ⟨"Minimum", "price", .nan⟩ ∧
    aggregate_data (CSVProcessor.mk ["price"] [[("price", "nan")]])
      "price" "avg" = .ok ⟨"Average", "price", .nan⟩ ∧
    aggregate_data (CSVProcessor.mk ["price"] [[("price", "nan")]])
      "price" "max" = .ok ⟨"Maximum", "price", .nan⟩ ∧
    PyFloat.le .nan .nan = false := by
  refine ⟨by with_unfolding_all rfl, by with_unfolding_all rfl,
    by with_unfolding_all rfl, by with_unfolding_all rfl, rfl⟩

/-- **C9 (amended).** For a known column whose cells all convert with
`float()`, none of them to NaN, and at least one row: the `min` and `max`
aggregates succeed and satisfy `min <= max`.  These two aggregates use
comparisons only, so the statement does not depend on float arithmetic;
the `avg` bounds of the original chain are dropped, because they depend
on binary64 rounding and overflow (a float sum can overflow to infinity
and exceed the maximum), which this embedding does not model. -/
theorem aggregate_min_le_max (p : CSVProcessor) (column : String)
    (v : PyFloat) (vs : List PyFloat)
    (hc : p.headers.contains column = true)
    (hfa : floatAll (p.data.map fun row => rowGet row column) = some (v :: vs))
    (hnn : ∀ x ∈ v :: vs, x ≠ PyFloat.nan) :
    ∃ mn mx : AggResult,
      aggregate_data p column "min" = .ok mn ∧
      aggregate_data p column "max" = .ok mx ∧
      PyFloat.le mn.value mx.value = true := by
  have hcm : column ∈ p.headers := by simpa using hc
  refine ⟨⟨"Minimum", column, pyMin v vs⟩, ⟨"Maximum", column, pyMax v vs⟩,
    ?_, ?_, ?_⟩
  · simp [aggregate_data, hcm, hfa]
  · simp [aggregate_data, hcm, hfa]
  · exact pyMin_le_all vs v hnn (pyMax v vs) (pyMax_mem vs v)

set_option maxRecDepth 10000 in
/-- Witness for C9 (amended) on the spec's price column
`[999, 1199, 199, 299]`. -/
theorem aggregate_min_le_max_witness :
    ∃ mn mx : AggResult,
      aggregate_data (CSVProcessor.mk ["price"]
        [[("price", "999")], [("price", "1199")],
         [("price", "199")], [("price", "299")]]) "price" "min" = .ok mn ∧
      aggregate_data (CSVProcessor.mk ["price"]
        [[("price", "999")], [("price", "1199")],
         [("price", "199")], [("price", "299")]]) "price" "max" = .ok mx ∧
      PyFloat.le mn.value mx.value = true :=
  aggregate_min_le_max (CSVProcessor.mk ["price"]
      [[("price", "999")], [("price", "1199")],
       [("price", "199")], [("price", "299")]]) "price"
    (.finite 999) [.finite 1199, .finite 199, .finite 299]
    (by decide) (by with_unfolding_all decide) (by decide)

/-- **C10.** Strings accepted by Python's `float()` beyond plain decimals
— `nan`, `inf`, `-inf`, `Infinity`, numerals with surrounding whitespace
— count as numeric: aggregating a column containing them succeeds
(possibly with a NaN or infinite value) instead of failing with
`NonNumericColumn`, and filtering compares them numerically (the
lexicographic fallback would decide the example differently). -/
theorem pyFloat_extended_numerics :
    pyFloat "nan" = some .nan ∧
    pyFloat "inf" = some .inf ∧
    pyFloat "-inf" = some .ninf ∧
    pyFloat "Infinity" = some .inf ∧
    pyFloat " 42 " = some (.finite 42) ∧
    aggregate_data (CSVProcessor.mk ["price"]
      [[("price", "nan")], [("price", "1")]]) "price" "avg" =
      .ok ⟨"Average", "price", .nan⟩ ∧
    aggregate_data (CSVProcessor.mk ["price"]
      [[("price", "inf")], [("price", "1")]]) "price" "avg" =
      .ok ⟨"Average", "price", .inf⟩ ∧
    matchesCell " 10 " ">" "9.5" = true ∧
    strMatch " 10 " ">" "9.5" = false := by
  refine ⟨by with_unfolding_all rfl, by with_unfolding_all rfl,
    by with_unfolding_all rfl, by with_unfolding_all rfl,
    by with_unfolding_all rfl, by with_unfolding_all rfl,
    by with_unfolding_all rfl, by with_unfolding_all rfl,
    by with_unfolding_all rfl⟩
